import Mathlib

/-!
# The yq external provider: scan, parse, evaluate

A shallow embedding of `pkg/yq_provider/service_client.go`.

Go strings are modelled as Lean strings (valid UTF-8 text).  A Go call that may
panic on an index returns `Except Fault`; a Go `(value, error)` pair is a pair
whose second component is the optional error.  Everything outside the file
(the YAML decoder, the file system, the `yq` subprocess, the URI and JSON
libraries, the goroutine scheduler and the iteration order of a Go map) is a
field of `Env`.
-/

namespace YqProvider

/-! ## Go standard library: `strings` -/

/-- Go's `unicode.IsSpace`: the code points with the White_Space property. -/
def isSpace (c : Char) : Bool :=
  let n := c.toNat
  (9 ≤ n && n ≤ 13) || n == 0x20 || n == 0x85 || n == 0xA0 || n == 0x1680 ||
    (0x2000 ≤ n && n ≤ 0x200A) || n == 0x2028 || n == 0x2029 || n == 0x202F ||
    n == 0x205F || n == 0x3000

/-- Go's `strings.TrimSpace`: leading and trailing white space removed. -/
def TrimSpace (s : String) : String :=
  ⟨((s.data.dropWhile isSpace).reverse.dropWhile isSpace).reverse⟩

/-- The scan of Go's `strings.genSplit` for a non-empty separator: `cur` holds
the current piece reversed, `skip` counts the characters of a separator just
matched that are still to be passed over.  With `sepSave` the separator stays
at the end of the piece it closes. -/
def genSplitAux (sep : List Char) (sepSave : Bool) :
    List Char → Nat → List Char → List (List Char)
  | [], _, cur => [cur.reverse]
  | _ :: cs, skip + 1, cur => genSplitAux sep sepSave cs skip cur
  | c :: cs, 0, cur =>
    if sep.isPrefixOf (c :: cs) then
      (cur.reverse ++ if sepSave then sep else []) ::
        genSplitAux sep sepSave cs (sep.length - 1) []
    else genSplitAux sep sepSave cs 0 (c :: cur)

/-- Go's `strings.genSplit` with `n = -1`: an empty separator explodes the
string into its characters, otherwise the string is cut at every
non-overlapping occurrence of the separator, leftmost first. -/
def genSplit (s sep : List Char) (sepSave : Bool) : List (List Char) :=
  if sep = [] then s.map fun c => [c] else genSplitAux sep sepSave s 0 []

/-- Go's `strings.Split`. -/
def Split (s sep : String) : List String :=
  (genSplit s.data sep.data false).map String.mk

/-- Go's `strings.SplitAfter`. -/
def SplitAfter (s sep : String) : List String :=
  (genSplit s.data sep.data true).map String.mk

/-! ## Go standard library: `strconv.Atoi` on a 64-bit platform -/

/-- The two kinds of `strconv.NumError`. -/
inductive NumError where
  | ErrSyntax
  | ErrRange
  deriving DecidableEq, Repr

/-- The largest `uint64`. -/
def maxUint64 : Nat := 2 ^ 64 - 1

/-- The digit loop of `strconv.ParseUint(s, 10, 64)`: a byte that is not a
decimal digit is a syntax error with value 0, an overflow is a range error
with the largest value. -/
def ParseUint.loop : List Char → Nat → Nat × Option NumError
  | [], n => (n, none)
  | c :: cs, n =>
    if 48 ≤ c.toNat ∧ c.toNat ≤ 57 then
      if n ≥ maxUint64 / 10 + 1 then (maxUint64, some .ErrRange)
      else
        let n1 := n * 10 + (c.toNat - 48)
        if n1 > maxUint64 then (maxUint64, some .ErrRange) else ParseUint.loop cs n1
    else (0, some .ErrSyntax)

/-- Go's `strconv.ParseUint(s, 10, 64)`. -/
def ParseUint (s : List Char) : Nat × Option NumError :=
  if s = [] then (0, some .ErrSyntax) else ParseUint.loop s 0

/-- Go's `strconv.ParseInt(s, 10, 0)` with 64-bit `int`. -/
def ParseInt (s : List Char) : Int × Option NumError :=
  match s with
  | [] => (0, some .ErrSyntax)
  | c :: cs =>
    let neg := c = '-'
    let s1 := if c = '+' ∨ c = '-' then cs else c :: cs
    match ParseUint s1 with
    | (_, some .ErrSyntax) => (0, some .ErrSyntax)
    | (un, _) =>
      if ¬ neg ∧ un ≥ 2 ^ 63 then ((2 : Int) ^ 63 - 1, some .ErrRange)
      else if neg ∧ un > 2 ^ 63 then (-(2 : Int) ^ 63, some .ErrRange)
      else (if neg then -(un : Int) else (un : Int), none)

/-- Go's `strconv.Atoi`: the value and the error it returns.  Its fast path for
short strings computes what `ParseInt(s, 10, 0)` computes. -/
def Atoi (s : String) : Int × Option NumError :=
  ParseInt s.data

/-! ## Data model -/

/-- A Go run-time panic of an index expression. -/
inductive Fault where
  | indexOutOfRange (index length : Nat)
  deriving DecidableEq, Repr

deriving instance DecidableEq for Except

/-- Go's index expression `xs[i]`. -/
def index {α : Type} (xs : List α) (i : Nat) : Except Fault α :=
  match xs[i]? with
  | some x => .ok x
  | none => .error (.indexOutOfRange i xs.length)

/-- Modelled from the spec: the declaration of `k8skey` is not in the file; its
fields are the two that `GetAllValuesForKey` sets, the value and the
line-number text. -/
structure k8skey where
  Value : String
  LineNumber : String
  deriving DecidableEq, Repr

/-- Modelled from the spec: the declaration of `k8sOutput` is not in the file;
a record is the file's URI and the parsed key. -/
structure k8sOutput where
  URI : String
  ImageTag : k8skey
  deriving DecidableEq, Repr

/-- Modelled from the spec: `provider.IncidentContext` is declared outside the
file; these are the fields `Evaluate` sets: the file URI, the line number (a
pointer to an `int`) and the variables map. -/
structure IncidentContext where
  FileURI : String
  LineNumber : Option Int
  Variables : List (String × String)
  deriving DecidableEq, Repr

/-- Modelled from the spec: `provider.ProviderEvaluateResponse` is declared
outside the file; `Evaluate` sets the match flag and the incidents. -/
structure ProviderEvaluateResponse where
  Matched : Bool
  Incidents : List IncidentContext
  deriving DecidableEq, Repr

/-- The fields of `exec.Cmd` that `ConstructYQCommand` copies by value. -/
structure Cmd where
  Path : String
  Args : List String
  Env : List String
  deriving DecidableEq, Repr

/-- What a call does to the outside world. -/
inductive Event where
  | findFiles (pattern : String)
  | readFile (file : String)
  | runCmd (cmd : Cmd) (input : String)
  deriving DecidableEq, Repr

/-- The collaborators of the service client.  `schedule` is the order in which
the per-file goroutines take the mutex, `mapRange` the order in which `range`
walks a map; Go fixes neither. -/
structure Env where
  /-- The error of `yaml.Unmarshal`, if any. -/
  yamlUnmarshal : List UInt8 → Option String
  /-- The configured root directory, `p.config.Location`. -/
  Location : String
  /-- The files and the error `provider.FindFilesMatchingPattern` returns. -/
  FindFilesMatchingPattern : String → String → List String × Option String
  /-- The result of `os.ReadFile`. -/
  ReadFile : String → Except String String
  /-- The template command `p.cmd`. -/
  cmd : Cmd
  /-- The standard output of `cmd.Run` on the given standard input, or its error. -/
  Run : Cmd → String → Except String String
  /-- The path and the error of `filepath.Abs`. -/
  Abs : String → String × Option String
  /-- The text of `url.URL` with scheme `file` and the given path. -/
  fileURL : String → String
  /-- The result of `uri.Parse`. -/
  uriParse : String → Except String String
  /-- The text of `json.Marshal` of an incident. -/
  jsonMarshal : IncidentContext → String
  schedule : List String → List String
  mapRange : List IncidentContext → List IncidentContext

/-! ## The query builder and the query executor -/

/-- The source's `ConstructYQCommand`: a fresh copy of the template command
with the fixed query expression appended to its arguments. -/
def ConstructYQCommand (env : Env) (_query : List String) : Cmd :=
  let queryString :=
    ".spec.template.spec.containers[0].image, .spec.template.spec.containers[0].image | line"
  { Path := env.cmd.Path, Args := env.cmd.Args ++ [queryString], Env := env.cmd.Env }

/-- The source's `ExecuteCmd`: the command's standard output split at the
document separator, or the error of the run. -/
def ExecuteCmd (env : Env) (cmd : Cmd) (input : String) : Except String (List String) :=
  match env.Run cmd input with
  | .error e => .error e
  | .ok stdout => .ok (Split stdout "---")

/-! ## The result parser -/

/-- The body of the loop over the segments in `GetAllValuesForKey`
(lines 127 to 147): the record of one segment, or the panic of `tag[1]` or
`result[1]`. -/
def parseOutput (env : Env) (file : String) (output : String) : Except Fault k8sOutput :=
  let result := Split (TrimSpace output) "\n"
  match index result 0 with
  | .error f => .error f
  | .ok first =>
    let tag := SplitAfter first ":"
    match index tag 1 with
    | .error f => .error f
    | .ok value =>
      match index result 1 with
      | .error f => .error f
      | .ok line =>
        let absPath := (env.Abs file).1
        let fileURI := env.fileURL absPath
        .ok { URI := fileURI, ImageTag := { Value := value, LineNumber := line } }

/-- The loop over the segments of one file's output: the records in order, or
the first panic. -/
def parseOutputs (env : Env) (file : String) : List String → Except Fault (List k8sOutput)
  | [] => .ok []
  | output :: rest =>
    match parseOutput env file output with
    | .error f => .error f
    | .ok r =>
      match parseOutputs env file rest with
      | .error f => .error f
      | .ok rs => .ok (r :: rs)

/-! ## The aggregator -/

/-- The goroutine of one file (lines 108 to 149): what it does to the outside
world and the records it appends under the mutex, or its panic.  A read error
or a failed run ends the goroutine with no record. -/
def scanFile (env : Env) (query : List String) (file : String) :
    List Event × Except Fault (List k8sOutput) :=
  match env.ReadFile file with
  | .error _ => ([.readFile file], .ok [])
  | .ok data =>
    let cmd := ConstructYQCommand env query
    match ExecuteCmd env cmd data with
    | .error _ => ([.readFile file, .runCmd cmd data], .ok [])
    | .ok result => ([.readFile file, .runCmd cmd data], parseOutputs env file result)

/-- The goroutines in the order in which they take the mutex: each appends its
records to the shared slice in one piece; a panic ends the process. -/
def runTasks (env : Env) (query : List String) :
    List String → List Event × Except Fault (List k8sOutput)
  | [] => ([], .ok [])
  | file :: rest =>
    match scanFile env query file with
    | (ev, .error f) => (ev, .error f)
    | (ev, .ok rs) =>
      match runTasks env query rest with
      | (evs, .error f) => (ev ++ evs, .error f)
      | (evs, .ok results) => (ev ++ evs, .ok (rs ++ results))

/-- The files `GetAllValuesForKey` scans: the `*.yaml` matches followed by the
`*.yml` matches; an enumeration error is only printed. -/
def matchingFiles (env : Env) : List String :=
  (env.FindFilesMatchingPattern env.Location "*.yaml").1 ++
    (env.FindFilesMatchingPattern env.Location "*.yml").1

/-- The source's `GetAllValuesForKey`: the events, and either a panic or the
pair of the collected records and the error, which is always nil. -/
def GetAllValuesForKey (env : Env) (query : List String) :
    List Event × Except Fault (List k8sOutput × Option String) :=
  match runTasks env query (env.schedule (matchingFiles env)) with
  | (ev, .error f) => ([.findFiles "*.yaml", .findFiles "*.yml"] ++ ev, .error f)
  | (ev, .ok results) => ([.findFiles "*.yaml", .findFiles "*.yml"] ++ ev, .ok (results, none))

/-! ## The evaluator -/

/-- A Go map from strings as the list of its entries, keys pairwise distinct. -/
abbrev IncidentsMap := List (String × IncidentContext)

/-- The assignment `m[k] = v`: the entry of an existing key is replaced. -/
def mapInsert (k : String) (v : IncidentContext) : IncidentsMap → IncidentsMap
  | [] => [(k, v)]
  | (k1, v1) :: rest => if k1 = k then (k, v) :: rest else (k1, v1) :: mapInsert k v rest

/-- The incident `Evaluate` builds for a record whose URI parsed to `u`
(lines 64 to 71); the error of `strconv.Atoi` is discarded. -/
def newIncident (u : String) (v : k8sOutput) : IncidentContext :=
  let lineNumber := (Atoi v.ImageTag.LineNumber).1
  { FileURI := u, LineNumber := some lineNumber, Variables := [("imageTag", v.ImageTag.Value)] }

/-- The first loop of `Evaluate` (lines 58 to 75): the map after the records
`values`, or the error of `uri.Parse` at the first matching record it rejects. -/
def collectIncidents (env : Env) : List k8sOutput → IncidentsMap → Except String IncidentsMap
  | [], incidentsMap => .ok incidentsMap
  | v :: rest, incidentsMap =>
    if v.ImageTag.Value = "latest" then
      match env.uriParse v.URI with
      | .error err => .error err
      | .ok u =>
        let incident := newIncident u v
        let b := env.jsonMarshal incident
        collectIncidents env rest (mapInsert b incident incidentsMap)
    else collectIncidents env rest incidentsMap

/-- Lines 56 to 88 of `Evaluate`: the response and the error for the records
`values` that `GetAllValuesForKey` returned. -/
def EvaluateValues (env : Env) (values : List k8sOutput) :
    ProviderEvaluateResponse × Option String :=
  match collectIncidents env values [] with
  | .error err => ({ Matched := false, Incidents := [] }, some err)
  | .ok incidentsMap =>
    let incidents := env.mapRange (incidentsMap.map Prod.snd)
    if incidents.length = 0 then ({ Matched := false, Incidents := [] }, none)
    else ({ Matched := true, Incidents := incidents }, none)

/-- The source's `Evaluate`: the events of the call, and either a panic or the
response and the error it returns. -/
def Evaluate (env : Env) (_cap : String) (conditionInfo : List UInt8) :
    List Event × Except Fault (ProviderEvaluateResponse × Option String) :=
  match env.yamlUnmarshal conditionInfo with
  | some _ => ([], .ok ({ Matched := false, Incidents := [] }, some "unable to get query info"))
  | none =>
    let query := ["image"]
    match GetAllValuesForKey env query with
    | (ev, .error f) => (ev, .error f)
    | (ev, .ok (_, some err)) =>
      (ev, .ok ({ Matched := false, Incidents := [] },
        some ("can't find any value for query: [image], error=" ++ err)))
    | (ev, .ok (values, none)) => (ev, .ok (EvaluateValues env values))

/-! ## Vocabulary of the statements -/

/-- The records that satisfy the predicate of `Evaluate`. -/
def matching (values : List k8sOutput) : List k8sOutput :=
  values.filter fun v => v.ImageTag.Value = "latest"

/-- The incidents `Evaluate` builds, in order, for the matching records whose
URI parses. -/
def candidates (env : Env) (values : List k8sOutput) : List IncidentContext :=
  values.filterMap fun v =>
    if v.ImageTag.Value = "latest" then
      match env.uriParse v.URI with
      | .ok u => some (newIncident u v)
      | .error _ => none
    else none

/-- Ranging over a map visits every entry once, in some order. -/
def FairRange (env : Env) : Prop :=
  ∀ l, (env.mapRange l).Perm l

/-- Every goroutine takes the mutex once, in some order. -/
def FairSchedule (env : Env) : Prop :=
  ∀ l, (env.schedule l).Perm l

/-- The JSON text tells apart the incidents built for `values`: of two of them
with the same text, one is the other. -/
def MarshalInjOn (env : Env) (values : List k8sOutput) : Prop :=
  ∀ a ∈ candidates env values, ∀ b ∈ candidates env values,
    env.jsonMarshal a = env.jsonMarshal b → a = b

instance (env : Env) (values : List k8sOutput) : Decidable (MarshalInjOn env values) := by
  unfold MarshalInjOn; infer_instance

/-- The lines of a segment as the parser sees them. -/
def segmentLines (output : String) : List String :=
  Split (TrimSpace output) "\n"

/-- A segment the parser can read: at least two lines, a colon in the first. -/
def WellFormedSegment (output : String) : Prop :=
  2 ≤ (segmentLines output).length ∧
    ∀ first, (segmentLines output)[0]? = some first → ':' ∈ first.data

instance (output : String) : Decidable (WellFormedSegment output) := by
  unfold WellFormedSegment
  cases (segmentLines output)[0]? with
  | none => exact decidable_of_iff (2 ≤ (segmentLines output).length) (by simp)
  | some first =>
    exact decidable_of_iff (2 ≤ (segmentLines output).length ∧ ':' ∈ first.data) (by simp)

/-- The entries of a map all sit under the JSON text of their incident, and no
key occurs twice. -/
def Keyed (env : Env) (m : IncidentsMap) : Prop :=
  (m.map Prod.fst).Nodup ∧ ∀ e ∈ m, e.1 = env.jsonMarshal e.2

/-- The map after the assignments of the incidents `cs`, in order. -/
def insertAll (env : Env) (cs : List IncidentContext) (m : IncidentsMap) : IncidentsMap :=
  cs.foldl (fun acc i => mapInsert (env.jsonMarshal i) i acc) m

/-- Two records for which `Evaluate` builds the same incident: the same parsed
URI, the same integer line number, the same value. -/
def SameIncident (env : Env) (a b : k8sOutput) : Prop :=
  env.uriParse a.URI = env.uriParse b.URI ∧
    (Atoi a.ImageTag.LineNumber).1 = (Atoi b.ImageTag.LineNumber).1 ∧
    a.ImageTag.Value = b.ImageTag.Value

/-- Every matching record of `values` has a URI that `uri.Parse` accepts. -/
def AllParse (env : Env) (values : List k8sOutput) : Prop :=
  ∀ v ∈ values, v.ImageTag.Value = "latest" → ∃ u, env.uriParse v.URI = .ok u

/-- An output of the engine all of whose segments the parser can read. -/
def WellFormedOutput (stdout : String) : Prop :=
  ∀ output ∈ Split stdout "---", WellFormedSegment output

instance (stdout : String) : Decidable (WellFormedOutput stdout) := by
  unfold WellFormedOutput; infer_instance

/-- The records parsed from the output of one file: none when the file cannot
be read or the engine fails on it. -/
def fileRecords (env : Env) (query : List String) (file : String) : List k8sOutput :=
  match env.ReadFile file with
  | .error _ => []
  | .ok data =>
    match env.Run (ConstructYQCommand env query) data with
    | .error _ => []
    | .ok stdout =>
      (Split stdout "---").filterMap fun output => (parseOutput env file output).toOption

/-- A file that is read, and on which the engine succeeds, has a well-formed
output. -/
def outputWellFormed (env : Env) (query : List String) (file : String) : Prop :=
  match env.ReadFile file with
  | .error _ => True
  | .ok data =>
    match env.Run (ConstructYQCommand env query) data with
    | .error _ => True
    | .ok stdout => WellFormedOutput stdout

instance (env : Env) (query : List String) (file : String) :
    Decidable (outputWellFormed env query file) :=
  match h : env.ReadFile file with
  | .error _ => isTrue (by simp [outputWellFormed, h])
  | .ok data =>
    match h1 : env.Run (ConstructYQCommand env query) data with
    | .error _ => isTrue (by simp [outputWellFormed, h, h1])
    | .ok stdout =>
      decidable_of_iff (WellFormedOutput stdout) (by simp [outputWellFormed, h, h1])

/-! ## An example environment -/

/-- The text of a decimal natural number, most significant digit first. -/
def natText : Nat → Nat → List Char
  | 0, _ => []
  | fuel + 1, n =>
    (if n < 10 then [] else natText fuel (n / 10)) ++ [Char.ofNat (48 + n % 10)]

/-- The text of an integer. -/
def intText (n : Int) : String :=
  ⟨(if n < 0 then ['-'] else []) ++ natText 20 n.natAbs⟩

/-- A directory `/repo` with `a.yaml` (image `nginx:latest` on line 10),
`b.yaml` (image `nginx:1.21` on line 5), an unreadable `c.yaml` and a `d.yml`
on which the engine fails.  File URIs with a plain path parse to themselves,
the payload `[` alone is not a YAML document, and the text of an incident
spells out its three fields.  Goroutines finish, and maps are walked, last
first. -/
def sampleEnv : Env where
  yamlUnmarshal := fun b =>
    if b = [91] then some "yaml: line 1: did not find expected node content" else none
  Location := "/repo"
  FindFilesMatchingPattern := fun _ pattern =>
    if pattern = "*.yaml" then (["/repo/a.yaml", "/repo/b.yaml", "/repo/c.yaml"], none)
    else if pattern = "*.yml" then (["/repo/d.yml"], none)
    else ([], none)
  ReadFile := fun file =>
    if file = "/repo/a.yaml" then .ok "a"
    else if file = "/repo/b.yaml" then .ok "b"
    else if file = "/repo/d.yml" then .ok "d"
    else .error "permission denied"
  cmd := { Path := "/usr/bin/yq", Args := ["yq"], Env := [] }
  Run := fun _ input =>
    if input = "a" then .ok "nginx:latest\n10\n"
    else if input = "b" then .ok "nginx:1.21\n5\n"
    else .error "exit status 1"
  Abs := fun file => (file, none)
  fileURL := fun path => "file://" ++ path
  uriParse := fun s =>
    if "file:///".data.isPrefixOf s.data then .ok s else .error "unknown scheme"
  jsonMarshal := fun i =>
    i.FileURI ++ " " ++ (match i.LineNumber with | some n => intText n | none => "null") ++
      " " ++ String.join (i.Variables.map fun kv => kv.1 ++ "=" ++ kv.2 ++ ";")
  schedule := List.reverse
  mapRange := List.reverse

/-- The record of `a.yaml`: image tag `latest` on line 10. -/
def recordA : k8sOutput :=
  { URI := "file:///repo/a.yaml", ImageTag := { Value := "latest", LineNumber := "10" } }

/-- The record of `b.yaml`: image tag `1.21` on line 5. -/
def recordB : k8sOutput :=
  { URI := "file:///repo/b.yaml", ImageTag := { Value := "1.21", LineNumber := "5" } }

/-- The incident of `recordA`. -/
def incidentA : IncidentContext :=
  { FileURI := "file:///repo/a.yaml", LineNumber := some 10, Variables := [("imageTag", "latest")] }

/-- Two matching records of one file whose line-number texts differ and denote
the same integer. -/
def spelledTwice : List k8sOutput :=
  [{ URI := "file:///repo/a.yaml", ImageTag := { Value := "latest", LineNumber := "7" } },
   { URI := "file:///repo/a.yaml", ImageTag := { Value := "latest", LineNumber := "07" } }]

/-- A matching record whose line-number text is not a number. -/
def recordNoLine : k8sOutput :=
  { URI := "file:///repo/a.yaml", ImageTag := { Value := "latest", LineNumber := "abc" } }

/-- A matching record whose line-number text overflows `int` before its
letter is read. -/
def recordBigLine : k8sOutput :=
  { URI := "file:///repo/a.yaml",
    ImageTag := { Value := "latest", LineNumber := "99999999999999999999999999x" } }

/-- The example directory, empty. -/
def emptyDirEnv : Env :=
  { sampleEnv with FindFilesMatchingPattern := fun _ _ => ([], none) }

/-- The example directory where the image of `a.yaml` comes from a registry
with a port: the engine prints `registry:5000/nginx:latest` and `10`. -/
def registryEnv : Env :=
  { sampleEnv with
    Run := fun _ input =>
      if input = "a" then .ok "registry:5000/nginx:latest\n10\n"
      else if input = "b" then .ok "nginx:1.21\n5\n"
      else .error "exit status 1" }

/-- The example directory where the engine prints `nginx` and `5` for
`b.yaml`, an image without a tag. -/
def untaggedEnv : Env :=
  { sampleEnv with
    Run := fun _ input =>
      if input = "a" then .ok "nginx:latest\n10\n"
      else if input = "b" then .ok "nginx\n5\n"
      else .error "exit status 1" }

/-! ## Lemmas: the incidents map -/

theorem mapInsert_keys (k : String) (v : IncidentContext) (m : IncidentsMap) :
    (mapInsert k v m).map Prod.fst =
      if k ∈ m.map Prod.fst then m.map Prod.fst else m.map Prod.fst ++ [k] := by
  induction m with
  | nil => simp [mapInsert]
  | cons e rest ih =>
    obtain ⟨k1, v1⟩ := e
    by_cases h : k1 = k
    · subst h; simp [mapInsert]
    · have h' : ¬ k = k1 := fun h' => h h'.symm
      simp only [mapInsert, if_neg h, List.map_cons, ih, List.mem_cons, h', false_or]
      split <;> simp

theorem mem_mapInsert (k : String) (v : IncidentContext) (m : IncidentsMap)
    (e : String × IncidentContext) (h : e ∈ mapInsert k v m) : e = (k, v) ∨ e ∈ m := by
  induction m with
  | nil => simpa [mapInsert] using h
  | cons e1 rest ih =>
    obtain ⟨k1, v1⟩ := e1
    by_cases hk : k1 = k
    · simp only [mapInsert, if_pos hk, List.mem_cons] at h
      rcases h with h | h
      · exact Or.inl h
      · exact Or.inr (List.mem_cons_of_mem _ h)
    · simp only [mapInsert, if_neg hk, List.mem_cons] at h
      rcases h with h | h
      · exact Or.inr (by simp [h])
      · rcases ih h with h | h
        · exact Or.inl h
        · exact Or.inr (List.mem_cons_of_mem _ h)

theorem mapInsert_self_mem (k : String) (v : IncidentContext) (m : IncidentsMap) :
    (k, v) ∈ mapInsert k v m := by
  induction m with
  | nil => simp [mapInsert]
  | cons e1 rest ih =>
    obtain ⟨k1, v1⟩ := e1
    by_cases hk : k1 = k
    · simp [mapInsert, hk]
    · simp only [mapInsert, if_neg hk, List.mem_cons]
      exact Or.inr ih

theorem mapInsert_mem_of_ne (k : String) (v : IncidentContext) (m : IncidentsMap)
    (e : String × IncidentContext) (h : e ∈ m) (hne : e.1 ≠ k) : e ∈ mapInsert k v m := by
  induction m with
  | nil => simp at h
  | cons e1 rest ih =>
    obtain ⟨k1, v1⟩ := e1
    rw [List.mem_cons] at h
    by_cases hk : k1 = k
    · simp only [mapInsert, if_pos hk, List.mem_cons]
      rcases h with h | h
      · subst h; exact absurd hk hne
      · exact Or.inr h
    · simp only [mapInsert, if_neg hk, List.mem_cons]
      rcases h with h | h
      · exact Or.inl h
      · exact Or.inr (ih h)

theorem Keyed.mapInsert {env : Env} {m : IncidentsMap} (hm : Keyed env m)
    (i : IncidentContext) : Keyed env (mapInsert (env.jsonMarshal i) i m) := by
  constructor
  · rw [mapInsert_keys]
    split
    · exact hm.1
    · rename_i hk
      exact List.Nodup.append hm.1 (List.nodup_singleton _) (by simpa using hk)
  · intro e he
    rcases mem_mapInsert _ _ _ _ he with h | h
    · rw [h]
    · exact hm.2 e h

theorem Keyed.insertAll {env : Env} (cs : List IncidentContext) {m : IncidentsMap}
    (hm : Keyed env m) : Keyed env (insertAll env cs m) := by
  induction cs generalizing m with
  | nil => exact hm
  | cons c cs ih => exact ih (hm.mapInsert c)

theorem Keyed.nodup_values {env : Env} {m : IncidentsMap} (hm : Keyed env m) :
    (m.map Prod.snd).Nodup := by
  have h : m.map Prod.fst = (m.map Prod.snd).map env.jsonMarshal := by
    rw [List.map_map]
    exact List.map_congr_left fun e he => hm.2 e he
  exact List.Nodup.of_map env.jsonMarshal (h ▸ hm.1)

theorem insertAll_keys (env : Env) (cs : List IncidentContext) (m : IncidentsMap) :
    ((insertAll env cs m).map Prod.fst).toFinset =
      (m.map Prod.fst).toFinset ∪ (cs.map env.jsonMarshal).toFinset := by
  induction cs generalizing m with
  | nil => simp [insertAll]
  | cons c cs ih =>
    have h := ih (mapInsert (env.jsonMarshal c) c m)
    simp only [insertAll, List.foldl_cons] at h ⊢
    rw [h, mapInsert_keys]
    ext k
    split <;> rename_i hk
    · simp only [Finset.mem_union, List.mem_toFinset, List.map_cons, List.mem_cons]
      constructor
      · rintro (h | h)
        · exact Or.inl h
        · exact Or.inr (Or.inr h)
      · rintro (h | h | h)
        · exact Or.inl h
        · exact Or.inl (h ▸ hk)
        · exact Or.inr h
    · simp only [Finset.mem_union, List.mem_toFinset, List.map_cons, List.mem_cons,
        List.mem_append, List.mem_singleton]
      tauto

theorem insertAll_length (env : Env) (cs : List IncidentContext) :
    (insertAll env cs []).length = (cs.map env.jsonMarshal).toFinset.card := by
  have hk : Keyed env (insertAll env cs []) :=
    Keyed.insertAll cs ⟨by simp, by simp⟩
  have h := insertAll_keys env cs []
  simp only [List.map_nil, List.toFinset_nil, Finset.empty_union] at h
  rw [← h, List.toFinset_card_of_nodup hk.1, List.length_map]

theorem mem_insertAll (env : Env) (cs : List IncidentContext) (m : IncidentsMap)
    (e : String × IncidentContext) (h : e ∈ insertAll env cs m) : e ∈ m ∨ e.2 ∈ cs := by
  induction cs generalizing m with
  | nil => exact Or.inl h
  | cons c cs ih =>
    rcases ih (mapInsert (env.jsonMarshal c) c m) h with h1 | h1
    · rcases mem_mapInsert _ _ _ _ h1 with h2 | h2
      · exact Or.inr (by simp [h2])
      · exact Or.inl h2
    · exact Or.inr (List.mem_cons_of_mem _ h1)

theorem insertAll_mem_values (env : Env) (cs : List IncidentContext) (m : IncidentsMap)
    (hm : Keyed env m)
    (hinj : ∀ a, (a ∈ m.map Prod.snd ∨ a ∈ cs) → ∀ b, (b ∈ m.map Prod.snd ∨ b ∈ cs) →
      env.jsonMarshal a = env.jsonMarshal b → a = b)
    (i : IncidentContext) (hi : i ∈ m.map Prod.snd ∨ i ∈ cs) :
    i ∈ (insertAll env cs m).map Prod.snd := by
  induction cs generalizing m with
  | nil => simpa [insertAll] using hi
  | cons c cs ih =>
    have hsub : ∀ a, (a ∈ (mapInsert (env.jsonMarshal c) c m).map Prod.snd ∨ a ∈ cs) →
        (a ∈ m.map Prod.snd ∨ a ∈ c :: cs) := by
      intro a ha
      rcases ha with ha | ha
      · obtain ⟨e, he, rfl⟩ := List.mem_map.1 ha
        rcases mem_mapInsert _ _ _ _ he with h | h
        · exact Or.inr (by simp [h])
        · exact Or.inl (List.mem_map.2 ⟨e, h, rfl⟩)
      · exact Or.inr (List.mem_cons_of_mem _ ha)
    refine ih (mapInsert (env.jsonMarshal c) c m) (hm.mapInsert c)
      (fun a ha b hb => hinj a (hsub a ha) b (hsub b hb)) ?_
    rcases hi with hi | hi
    · obtain ⟨e, he, rfl⟩ := List.mem_map.1 hi
      by_cases hk : e.1 = env.jsonMarshal c
      · have hec : e.2 = c :=
          hinj e.2 (Or.inl hi) c (Or.inr (List.mem_cons_self _ _)) ((hm.2 e he).symm.trans hk)
        exact Or.inl (List.mem_map.2 ⟨_, mapInsert_self_mem _ c m, hec.symm⟩)
      · exact Or.inl (List.mem_map.2 ⟨e, mapInsert_mem_of_ne _ _ _ e he hk, rfl⟩)
    · rcases List.mem_cons.1 hi with h | h
      · exact Or.inl (List.mem_map.2 ⟨_, mapInsert_self_mem _ c m, h.symm⟩)
      · exact Or.inr h

/-! ## Lemmas: the loop of `Evaluate` -/

theorem mem_candidates {env : Env} {values : List k8sOutput} {i : IncidentContext} :
    i ∈ candidates env values ↔
      ∃ v ∈ values, v.ImageTag.Value = "latest" ∧
        ∃ u, env.uriParse v.URI = .ok u ∧ i = newIncident u v := by
  unfold candidates
  rw [List.mem_filterMap]
  constructor
  · rintro ⟨v, hv, h⟩
    refine ⟨v, hv, ?_⟩
    by_cases hl : v.ImageTag.Value = "latest"
    · rw [if_pos hl] at h
      refine ⟨hl, ?_⟩
      cases hu : env.uriParse v.URI with
      | error e => rw [hu] at h; simp at h
      | ok u => rw [hu] at h; exact ⟨u, rfl, by simpa using h.symm⟩
    · rw [if_neg hl] at h; simp at h
  · rintro ⟨v, hv, hl, u, hu, rfl⟩
    exact ⟨v, hv, by rw [if_pos hl, hu]⟩

theorem collect_of_allParse (env : Env) (values : List k8sOutput) (m : IncidentsMap)
    (h : AllParse env values) :
    collectIncidents env values m = .ok (insertAll env (candidates env values) m) := by
  induction values generalizing m with
  | nil => rfl
  | cons v vs ih =>
    have hvs : AllParse env vs := fun w hw hl => h w (List.mem_cons_of_mem _ hw) hl
    by_cases hl : v.ImageTag.Value = "latest"
    · obtain ⟨u, hu⟩ := h v (List.mem_cons_self _ _) hl
      simp only [collectIncidents, if_pos hl, hu, candidates, List.filterMap_cons]
      rw [ih _ hvs]
      rfl
    · simp only [collectIncidents, if_neg hl, candidates, List.filterMap_cons]
      rw [ih _ hvs]
      rfl

theorem allParse_of_collect (env : Env) (values : List k8sOutput) (m m1 : IncidentsMap)
    (h : collectIncidents env values m = .ok m1) : AllParse env values := by
  induction values generalizing m with
  | nil => intro v hv; simp at hv
  | cons v vs ih =>
    by_cases hl : v.ImageTag.Value = "latest"
    · simp only [collectIncidents, if_pos hl] at h
      cases hu : env.uriParse v.URI with
      | error e => rw [hu] at h; simp at h
      | ok u =>
        rw [hu] at h
        intro w hw hwl
        rcases List.mem_cons.1 hw with rfl | hw
        · exact ⟨u, hu⟩
        · exact ih _ h w hw hwl
    · simp only [collectIncidents, if_neg hl] at h
      intro w hw hwl
      rcases List.mem_cons.1 hw with rfl | hw
      · exact absurd hwl hl
      · exact ih _ h w hw hwl

theorem candidates_length (env : Env) (values : List k8sOutput) (h : AllParse env values) :
    (candidates env values).length = (matching values).length := by
  induction values with
  | nil => rfl
  | cons v vs ih =>
    have hvs : AllParse env vs := fun w hw hl => h w (List.mem_cons_of_mem _ hw) hl
    by_cases hl : v.ImageTag.Value = "latest"
    · obtain ⟨u, hu⟩ := h v (List.mem_cons_self _ _) hl
      simp [candidates, matching, hl, hu] at ih ⊢
      exact ih hvs
    · simp [candidates, matching, hl] at ih ⊢
      exact ih hvs

theorem newIncident_eq_iff (u u1 : String) (a b : k8sOutput) :
    newIncident u a = newIncident u1 b ↔
      u = u1 ∧ (Atoi a.ImageTag.LineNumber).1 = (Atoi b.ImageTag.LineNumber).1 ∧
        a.ImageTag.Value = b.ImageTag.Value := by
  simp [newIncident]

theorem candidates_nodup_iff (env : Env) (values : List k8sOutput) (h : AllParse env values) :
    (candidates env values).Nodup ↔
      (matching values).Pairwise fun a b => ¬ SameIncident env a b := by
  induction values with
  | nil => simp [candidates, matching]
  | cons v vs ih =>
    have hvs : AllParse env vs := fun w hw hl => h w (List.mem_cons_of_mem _ hw) hl
    by_cases hl : v.ImageTag.Value = "latest"
    · obtain ⟨u, hu⟩ := h v (List.mem_cons_self _ _) hl
      have hc : candidates env (v :: vs) = newIncident u v :: candidates env vs := by
        simp [candidates, hl, hu]
      have hm : matching (v :: vs) = v :: matching vs := by simp [matching, hl]
      rw [hc, hm, List.nodup_cons, List.pairwise_cons, ih hvs]
      refine and_congr_left fun _ => ?_
      constructor
      · intro hn b hb hs
        have hb1 := List.mem_filter.1 hb
        have hbl : b.ImageTag.Value = "latest" := by simpa using hb1.2
        refine hn (mem_candidates.2 ⟨b, hb1.1, hbl, u, ?_, ?_⟩)
        · rw [← hs.1, hu]
        · exact (newIncident_eq_iff u u v b).2 ⟨rfl, hs.2⟩
      · intro hn hmem
        obtain ⟨b, hb, hbl, u1, hu1, he⟩ := mem_candidates.1 hmem
        have he1 := (newIncident_eq_iff u u1 v b).1 he
        refine hn b (List.mem_filter.2 ⟨hb, by simpa using hbl⟩) ⟨?_, he1.2⟩
        rw [hu, hu1, he1.1]
    · have hc : candidates env (v :: vs) = candidates env vs := by simp [candidates, hl]
      have hm : matching (v :: vs) = matching vs := by simp [matching, hl]
      rw [hc, hm, ih hvs]

/-- What a successful run of lines 56 to 88 returns. -/
theorem EvaluateValues_ok {env : Env} {values : List k8sOutput}
    {resp : ProviderEvaluateResponse} (h : EvaluateValues env values = (resp, none)) :
    AllParse env values ∧
      resp.Incidents = env.mapRange ((insertAll env (candidates env values) []).map Prod.snd) ∧
      (resp.Matched = true ↔ resp.Incidents ≠ []) := by
  unfold EvaluateValues at h
  cases hc : collectIncidents env values [] with
  | error e => rw [hc] at h; simp at h
  | ok m =>
    have hp := allParse_of_collect env values [] m hc
    have hm : m = insertAll env (candidates env values) [] := by
      have := collect_of_allParse env values [] hp
      rw [hc] at this
      exact Except.ok.inj this
    rw [hc] at h
    subst hm
    refine ⟨hp, ?_⟩
    simp only at h
    split at h
    · rename_i h0
      have hr := (Prod.mk.inj h).1
      subst hr
      exact ⟨(List.length_eq_zero.1 h0).symm, by simp⟩
    · rename_i h0
      have hr := (Prod.mk.inj h).1
      subst hr
      refine ⟨rfl, ?_⟩
      simp only [true_iff]
      exact fun hn => h0 (by rw [hn]; rfl)

/-- A run of lines 56 to 88 succeeds exactly when every matching record has a
URI that parses. -/
theorem EvaluateValues_succeeds_iff (env : Env) (values : List k8sOutput) :
    (EvaluateValues env values).2 = none ↔ AllParse env values := by
  constructor
  · intro h
    have hr : EvaluateValues env values = ((EvaluateValues env values).1, none) :=
      Prod.ext rfl h
    exact (EvaluateValues_ok hr).1
  · intro h
    unfold EvaluateValues
    rw [collect_of_allParse env values [] h]
    simp only
    split <;> rfl

theorem incidents_nodup {env : Env} {values : List k8sOutput}
    {resp : ProviderEvaluateResponse} (hrange : FairRange env)
    (h : EvaluateValues env values = (resp, none)) : resp.Incidents.Nodup := by
  obtain ⟨_, hi, _⟩ := EvaluateValues_ok h
  rw [hi, (hrange _).nodup_iff]
  exact (Keyed.insertAll (candidates env values) ⟨by simp, by simp⟩).nodup_values

theorem incidents_length {env : Env} {values : List k8sOutput}
    {resp : ProviderEvaluateResponse} (hrange : FairRange env)
    (h : EvaluateValues env values = (resp, none)) :
    resp.Incidents.length = ((candidates env values).map env.jsonMarshal).toFinset.card := by
  obtain ⟨_, hi, _⟩ := EvaluateValues_ok h
  rw [hi, (hrange _).length_eq, List.length_map, insertAll_length]

theorem mem_candidates_of_mem_incidents {env : Env} {values : List k8sOutput}
    {resp : ProviderEvaluateResponse} (hrange : FairRange env)
    (h : EvaluateValues env values = (resp, none))
    {i : IncidentContext} (hmem : i ∈ resp.Incidents) : i ∈ candidates env values := by
  obtain ⟨_, hi, _⟩ := EvaluateValues_ok h
  rw [hi, (hrange _).mem_iff] at hmem
  obtain ⟨e, he, rfl⟩ := List.mem_map.1 hmem
  rcases mem_insertAll env _ _ e he with h1 | h1
  · simp at h1
  · exact h1

theorem mem_incidents_of_mem_candidates {env : Env} {values : List k8sOutput}
    {resp : ProviderEvaluateResponse} (hrange : FairRange env)
    (hinj : MarshalInjOn env values) (h : EvaluateValues env values = (resp, none))
    {i : IncidentContext} (hmem : i ∈ candidates env values) : i ∈ resp.Incidents := by
  obtain ⟨_, hi, _⟩ := EvaluateValues_ok h
  rw [hi, (hrange _).mem_iff]
  refine insertAll_mem_values env _ [] ⟨by simp, by simp⟩ ?_ i (Or.inr hmem)
  intro a ha b hb
  rcases ha with ha | ha
  · simp at ha
  rcases hb with hb | hb
  · simp at hb
  exact hinj a ha b hb

theorem incidents_ne_nil_iff {env : Env} {values : List k8sOutput}
    {resp : ProviderEvaluateResponse} (hrange : FairRange env)
    (h : EvaluateValues env values = (resp, none)) :
    resp.Incidents ≠ [] ↔ candidates env values ≠ [] := by
  have hl := incidents_length hrange h
  constructor
  · intro hne hc
    rw [hc] at hl
    exact hne (List.length_eq_zero.1 (by simpa using hl))
  · intro hne hnil
    rw [hnil, List.length_nil] at hl
    have h0 := Finset.card_eq_zero.1 hl.symm
    rw [List.toFinset_eq_empty_iff, List.map_eq_nil_iff] at h0
    exact hne h0

theorem ParseInt_syntax_zero (l : List Char) (h : (ParseInt l).2 = some .ErrSyntax) :
    (ParseInt l).1 = 0 := by
  cases l with
  | nil => rfl
  | cons c cs =>
    simp only [ParseInt] at h ⊢
    split
    · rfl
    · rename_i un e hne hp
      rw [hp] at h
      simp only at h
      split_ifs at h <;> simp at h

theorem ParseInt_range_bound (l : List Char) (h : (ParseInt l).2 = some .ErrRange) :
    (ParseInt l).1 = 2 ^ 63 - 1 ∨ (ParseInt l).1 = -2 ^ 63 := by
  cases l with
  | nil => simp [ParseInt] at h
  | cons c cs =>
    simp only [ParseInt] at h ⊢
    split
    · rename_i hp
      rw [hp] at h
      simp at h
    · rename_i un e hne hp
      rw [hp] at h
      simp only at h
      split_ifs at h ⊢ <;> simp at h ⊢

theorem Atoi_range_bound (s : String) (h : (Atoi s).2 = some .ErrRange) :
    (Atoi s).1 = 2 ^ 63 - 1 ∨ (Atoi s).1 = -2 ^ 63 :=
  ParseInt_range_bound s.data h

theorem Atoi_syntax_zero (s : String) (h : (Atoi s).2 = some .ErrSyntax) : (Atoi s).1 = 0 :=
  ParseInt_syntax_zero s.data h

/-! ## Lemmas: the parser -/

theorem genSplitAux_not_mem (c0 : Char) (save : Bool) (s cur : List Char) (h : c0 ∉ s) :
    genSplitAux [c0] save s 0 cur = [cur.reverse ++ s] := by
  induction s generalizing cur with
  | nil => simp [genSplitAux]
  | cons c cs ih =>
    have hc : c0 ≠ c := fun hc => h (by simp [hc])
    have hcs : c0 ∉ cs := fun hcs => h (List.mem_cons_of_mem _ hcs)
    simp [genSplitAux, hc, ih _ hcs]

theorem genSplitAux_mem (c0 : Char) (save : Bool) (s cur : List Char) (h : c0 ∈ s) :
    ∃ pre rest, s = pre ++ c0 :: rest ∧ c0 ∉ pre ∧
      genSplitAux [c0] save s 0 cur =
        (cur.reverse ++ pre ++ if save then [c0] else []) :: genSplitAux [c0] save rest 0 [] := by
  induction s generalizing cur with
  | nil => simp at h
  | cons c cs ih =>
    by_cases hc : c0 = c
    · subst hc
      exact ⟨[], cs, rfl, by simp, by simp [genSplitAux]⟩
    · have hcs : c0 ∈ cs := by
        rcases List.mem_cons.1 h with h | h
        · exact absurd h hc
        · exact h
      obtain ⟨pre, rest, hs, hpre, hg⟩ := ih (c :: cur) hcs
      refine ⟨c :: pre, rest, by simp [hs], by simp [hc, hpre], ?_⟩
      simp [genSplitAux, hc, hg]

theorem index_of_getElem? {α : Type} {xs : List α} {i : Nat} {x : α} (h : xs[i]? = some x) :
    index xs i = .ok x := by
  simp [index, h]

/-- The second piece of `strings.SplitAfter(first, ":")` when `first` has a
colon: what follows the first colon, up to and with the next colon if there
is one. -/
theorem SplitAfter_colon_second (first : String) (h : ':' ∈ first.data) :
    ∃ pre rest value, first.data = pre ++ ':' :: rest ∧ ':' ∉ pre ∧
      (SplitAfter first ":")[1]? = some value ∧
      ((':' ∉ rest ∧ value.data = rest) ∨
        ∃ mid tail, rest = mid ++ ':' :: tail ∧ ':' ∉ mid ∧ value.data = mid ++ [':']) := by
  obtain ⟨pre, rest, hs, hpre, hg⟩ := genSplitAux_mem ':' true first.data [] h
  have hsplit : SplitAfter first ":" =
      (genSplitAux [':'] true first.data 0 []).map String.mk := by
    simp [SplitAfter, genSplit]
  by_cases hr : ':' ∈ rest
  · obtain ⟨mid, tail, hrest, hmid, hg1⟩ := genSplitAux_mem ':' true rest [] hr
    refine ⟨pre, rest, ⟨mid ++ [':']⟩, hs, hpre, ?_, Or.inr ⟨mid, tail, hrest, hmid, rfl⟩⟩
    rw [hsplit, hg, hg1]
    simp
  · refine ⟨pre, rest, ⟨rest⟩, hs, hpre, ?_, Or.inl ⟨hr, rfl⟩⟩
    rw [hsplit, hg, genSplitAux_not_mem ':' true rest [] hr]
    simp

/-- A well-formed segment parses, to the record of its first two lines. -/
theorem parseOutput_of_wellFormed (env : Env) (file output : String)
    (h : WellFormedSegment output) :
    ∃ first line value, (segmentLines output)[0]? = some first ∧
      (segmentLines output)[1]? = some line ∧
      (SplitAfter first ":")[1]? = some value ∧
      parseOutput env file output =
        .ok { URI := env.fileURL (env.Abs file).1,
              ImageTag := { Value := value, LineNumber := line } } := by
  obtain ⟨hlen, hcolon⟩ := h
  obtain ⟨first, line, t, hl⟩ : ∃ a b t, segmentLines output = a :: b :: t := by
    cases hs : segmentLines output with
    | nil => rw [hs] at hlen; simp at hlen
    | cons a l =>
      cases l with
      | nil => rw [hs] at hlen; simp at hlen
      | cons b t => exact ⟨a, b, t, rfl⟩
  have h0 : (segmentLines output)[0]? = some first := by rw [hl]; simp
  have h1 : (segmentLines output)[1]? = some line := by rw [hl]; simp
  obtain ⟨_, _, value, _, _, hv, _⟩ := SplitAfter_colon_second first (hcolon first h0)
  refine ⟨first, line, value, h0, h1, hv, ?_⟩
  unfold parseOutput
  unfold segmentLines at h0 h1
  simp only [index_of_getElem? h0, index_of_getElem? hv, index_of_getElem? h1]

theorem parseOutputs_of_wellFormed (env : Env) (file : String) (outputs : List String)
    (h : ∀ output ∈ outputs, WellFormedSegment output) :
    parseOutputs env file outputs =
        .ok (outputs.filterMap fun output => (parseOutput env file output).toOption) ∧
      (outputs.filterMap fun output => (parseOutput env file output).toOption).length =
        outputs.length := by
  induction outputs with
  | nil => exact ⟨rfl, rfl⟩
  | cons o os ih =>
    obtain ⟨_, line, value, _, _, _, ho⟩ := parseOutput_of_wellFormed env file o
      (h o (List.mem_cons_self _ _))
    obtain ⟨ih1, ih2⟩ := ih fun x hx => h x (List.mem_cons_of_mem _ hx)
    have hsome : (fun output => (parseOutput env file output).toOption) o =
        some { URI := env.fileURL (env.Abs file).1,
               ImageTag := { Value := value, LineNumber := line } } := by
      simp only [ho, Except.toOption]
    have hfm : (o :: os).filterMap (fun output => (parseOutput env file output).toOption) =
        { URI := env.fileURL (env.Abs file).1,
          ImageTag := { Value := value, LineNumber := line } } ::
          os.filterMap (fun output => (parseOutput env file output).toOption) :=
      List.filterMap_cons_some hsome
    rw [hfm]
    constructor
    · simp only [parseOutputs, ho, ih1]
    · rw [List.length_cons, List.length_cons, ih2]

/-! ## Lemmas: the aggregator -/

theorem scanFile_of_wellFormed (env : Env) (query : List String) (file : String)
    (h : ∀ data stdout, env.ReadFile file = .ok data →
      env.Run (ConstructYQCommand env query) data = .ok stdout → WellFormedOutput stdout) :
    (scanFile env query file).2 = .ok (fileRecords env query file) := by
  unfold scanFile fileRecords ExecuteCmd
  cases hr : env.ReadFile file with
  | error e => rfl
  | ok data =>
    cases hx : env.Run (ConstructYQCommand env query) data with
    | error e => simp only [hx]
    | ok stdout =>
      simp only [hx]
      exact (parseOutputs_of_wellFormed env file _ (h data stdout hr hx)).1

theorem runTasks_of_wellFormed (env : Env) (query : List String) (files : List String)
    (h : ∀ file ∈ files, ∀ data stdout, env.ReadFile file = .ok data →
      env.Run (ConstructYQCommand env query) data = .ok stdout → WellFormedOutput stdout) :
    (runTasks env query files).2 = .ok (files.flatMap (fileRecords env query)) := by
  induction files with
  | nil => rfl
  | cons f fs ih =>
    have hf := scanFile_of_wellFormed env query f (h f (List.mem_cons_self _ _))
    have hfs := ih fun x hx => h x (List.mem_cons_of_mem _ hx)
    unfold runTasks
    cases hsf : scanFile env query f with
    | mk ev r =>
      rw [hsf] at hf
      simp only at hf
      subst hf
      cases hrt : runTasks env query fs with
      | mk evs r1 =>
        rw [hrt] at hfs
        simp only at hfs
        subst hfs
        simp [List.flatMap_cons]

theorem GetAllValuesForKey_of_runTasks (env : Env) (query : List String)
    (results : List k8sOutput)
    (h : (runTasks env query (env.schedule (matchingFiles env))).2 = .ok results) :
    (GetAllValuesForKey env query).2 = .ok (results, none) := by
  unfold GetAllValuesForKey
  cases hrt : runTasks env query (env.schedule (matchingFiles env)) with
  | mk ev r =>
    rw [hrt] at h
    simp only at h
    subst h
    rfl

theorem EvaluateValues_no_match (env : Env) (values : List k8sOutput)
    (hrange : FairRange env) (h : ∀ v ∈ values, v.ImageTag.Value ≠ "latest") :
    EvaluateValues env values = (⟨false, []⟩, none) := by
  have hp : AllParse env values := fun v hv hl => absurd hl (h v hv)
  have hc : candidates env values = [] := by
    apply List.eq_nil_iff_forall_not_mem.2
    intro i hi
    obtain ⟨v, hv, hl, _⟩ := mem_candidates.1 hi
    exact h v hv hl
  unfold EvaluateValues
  rw [collect_of_allParse env values [] hp, hc]
  simp [insertAll, (hrange []).eq_nil]

/-! ## The claims about `Evaluate` -/

/-- C1: when lines 56 to 88 of `Evaluate` succeed on a list of records, no two
of the returned incidents have the same file URI, the same integer line number
and the same variables map. -/
theorem Evaluate_incidents_distinct (env : Env) (values : List k8sOutput)
    (resp : ProviderEvaluateResponse) (hrange : FairRange env)
    (h : EvaluateValues env values = (resp, none)) :
    resp.Incidents.Pairwise fun a b =>
      ¬ (a.FileURI = b.FileURI ∧ a.LineNumber = b.LineNumber ∧ a.Variables = b.Variables) := by
  refine List.Pairwise.imp ?_ (incidents_nodup hrange h)
  intro a b hne hab
  apply hne
  cases a; cases b
  simp only [IncidentContext.mk.injEq]
  exact hab

/-- C1 at a list in which the record of `a.yaml` occurs twice: one incident is
returned for it. -/
theorem Evaluate_incidents_distinct_witness :
    EvaluateValues sampleEnv [recordA, recordB, recordA] = (⟨true, [incidentA]⟩, none) ∧
      [incidentA].Pairwise fun a b =>
        ¬ (a.FileURI = b.FileURI ∧ a.LineNumber = b.LineNumber ∧ a.Variables = b.Variables) :=
  ⟨by decide,
    Evaluate_incidents_distinct sampleEnv [recordA, recordB, recordA] ⟨true, [incidentA]⟩
      (fun l => List.reverse_perm l) (by decide)⟩

/-- C2 as stated fails: two matching records that differ in their line-number
field, so that no two share the triple of URI, line-number field and value,
give one incident, not two. -/
theorem Evaluate_count_counterexample :
    EvaluateValues sampleEnv spelledTwice =
        (⟨true, [⟨"file:///repo/a.yaml", some 7, [("imageTag", "latest")]⟩]⟩, none) ∧
      (matching spelledTwice).length = 2 ∧
      (matching spelledTwice).Pairwise fun a b =>
        ¬ (a.URI = b.URI ∧ a.ImageTag.LineNumber = b.ImageTag.LineNumber ∧
          a.ImageTag.Value = b.ImageTag.Value) := by
  decide

/-- C2, amended: when lines 56 to 88 of `Evaluate` succeed, the number of
incidents is at most the number of matching records, and, the JSON text telling
the built incidents apart, the two are equal exactly when no two matching
records give the same incident: the same parsed URI, the same integer line
number and the same value. -/
theorem Evaluate_count (env : Env) (values : List k8sOutput)
    (resp : ProviderEvaluateResponse) (hrange : FairRange env)
    (h : EvaluateValues env values = (resp, none)) :
    resp.Incidents.length ≤ (matching values).length ∧
      (MarshalInjOn env values →
        (resp.Incidents.length = (matching values).length ↔
          (matching values).Pairwise fun a b => ¬ SameIncident env a b)) := by
  have hp := (EvaluateValues_ok h).1
  rw [incidents_length hrange h, ← candidates_length env values hp,
    ← candidates_nodup_iff env values hp]
  constructor
  · simpa using List.toFinset_card_le ((candidates env values).map env.jsonMarshal)
  · intro hinj
    have hiff := Multiset.toFinset_card_eq_card_iff_nodup
      (m := (((candidates env values).map env.jsonMarshal : List String) : Multiset String))
    simp only [Multiset.coe_card, Multiset.coe_nodup, List.length_map] at hiff
    constructor
    · intro hc
      exact List.Nodup.of_map _ (hiff.1 hc)
    · intro hn
      exact hiff.2 (List.Nodup.map_on hinj hn)

/-- C2, amended, at a list in which the record of `a.yaml` occurs twice: one
incident for two matching records, which give the same incident. -/
theorem Evaluate_count_witness :
    EvaluateValues sampleEnv [recordA, recordB, recordA] = (⟨true, [incidentA]⟩, none) ∧
      [incidentA].length ≤ (matching [recordA, recordB, recordA]).length ∧
      ([incidentA].length = (matching [recordA, recordB, recordA]).length ↔
        (matching [recordA, recordB, recordA]).Pairwise
          fun a b => ¬ SameIncident sampleEnv a b) :=
  ⟨by decide,
    (Evaluate_count sampleEnv [recordA, recordB, recordA] ⟨true, [incidentA]⟩
      (fun l => List.reverse_perm l) (by decide)).1,
    (Evaluate_count sampleEnv [recordA, recordB, recordA] ⟨true, [incidentA]⟩
      (fun l => List.reverse_perm l) (by decide)).2 (by decide)⟩

/-- C4 as stated fails: for a matching record whose line-number text is not a
number `Evaluate` returns no error and an incident on line 0. -/
theorem Evaluate_bad_line_counterexample :
    (Atoi recordNoLine.ImageTag.LineNumber).2 = some .ErrSyntax ∧
      EvaluateValues sampleEnv [recordB, recordNoLine] =
        (⟨true, [⟨"file:///repo/a.yaml", some 0, [("imageTag", "latest")]⟩]⟩, none) := by
  decide

/-- C4, amended: a matching record whose line-number text `strconv.Atoi`
rejects does not make `Evaluate` fail.  When the URI of every matching record
parses, and the JSON text tells the built incidents apart, `Evaluate` returns
no error, `matched = true`, and for that record the incident whose line number
is the integer `Atoi` returns beside its error: 0 when the error is a syntax
error, and the largest or the smallest 64-bit integer when it is a range
error. -/
theorem Evaluate_bad_line (env : Env) (values : List k8sOutput) (v : k8sOutput)
    (hrange : FairRange env) (hinj : MarshalInjOn env values) (hparse : AllParse env values)
    (hv : v ∈ values) (hl : v.ImageTag.Value = "latest")
    (_herr : (Atoi v.ImageTag.LineNumber).2 ≠ none) :
    ∃ resp u, EvaluateValues env values = (resp, none) ∧ resp.Matched = true ∧
      env.uriParse v.URI = .ok u ∧
      { FileURI := u, LineNumber := some (Atoi v.ImageTag.LineNumber).1,
        Variables := [("imageTag", "latest")] } ∈ resp.Incidents ∧
      ((Atoi v.ImageTag.LineNumber).2 = some .ErrSyntax →
        (Atoi v.ImageTag.LineNumber).1 = 0) ∧
      ((Atoi v.ImageTag.LineNumber).2 = some .ErrRange →
        (Atoi v.ImageTag.LineNumber).1 = 2 ^ 63 - 1 ∨
          (Atoi v.ImageTag.LineNumber).1 = -2 ^ 63) := by
  have hs := (EvaluateValues_succeeds_iff env values).2 hparse
  have h : EvaluateValues env values = ((EvaluateValues env values).1, none) :=
    Prod.ext rfl hs
  obtain ⟨u, hu⟩ := hparse v hv hl
  have hmem : newIncident u v ∈ (EvaluateValues env values).1.Incidents :=
    mem_incidents_of_mem_candidates hrange hinj h (mem_candidates.2 ⟨v, hv, hl, u, hu, rfl⟩)
  refine ⟨_, u, h, ?_, hu, ?_, Atoi_syntax_zero _, Atoi_range_bound _⟩
  · exact (EvaluateValues_ok h).2.2.2 (List.ne_nil_of_mem hmem)
  · simpa [newIncident, hl] using hmem

/-- C4, amended, at a record whose line-number text is
`99999999999999999999999999x`, in a list that also holds one whose text is
`abc`: the first is a range error and its incident is on line
9223372036854775807. -/
theorem Evaluate_bad_line_witness :
    Atoi recordBigLine.ImageTag.LineNumber = (9223372036854775807, some .ErrRange) ∧
      ∃ resp u, EvaluateValues sampleEnv [recordB, recordNoLine, recordBigLine] = (resp, none) ∧
        resp.Matched = true ∧ sampleEnv.uriParse recordBigLine.URI = .ok u ∧
        { FileURI := u, LineNumber := some (Atoi recordBigLine.ImageTag.LineNumber).1,
          Variables := [("imageTag", "latest")] } ∈ resp.Incidents ∧
        ((Atoi recordBigLine.ImageTag.LineNumber).2 = some .ErrSyntax →
          (Atoi recordBigLine.ImageTag.LineNumber).1 = 0) ∧
        ((Atoi recordBigLine.ImageTag.LineNumber).2 = some .ErrRange →
          (Atoi recordBigLine.ImageTag.LineNumber).1 = 2 ^ 63 - 1 ∨
            (Atoi recordBigLine.ImageTag.LineNumber).1 = -2 ^ 63) :=
  ⟨by decide,
    Evaluate_bad_line sampleEnv [recordB, recordNoLine, recordBigLine] recordBigLine
      (fun l => List.reverse_perm l) (by decide)
      ((EvaluateValues_succeeds_iff sampleEnv [recordB, recordNoLine, recordBigLine]).1
        (by decide))
      (by decide) (by decide) (by decide)⟩

/-- C6: when lines 56 to 88 of `Evaluate` succeed, the returned incidents are
exactly those of the records whose value is `latest`.  Every returned incident
carries `imageTag = latest` with the parsed URI and the integer line number of
such a record; the JSON text telling the built incidents apart, every such
record has its incident returned; and no returned incident carries the value
of a record whose value is not `latest`. -/
theorem Evaluate_incidents_exact (env : Env) (values : List k8sOutput)
    (resp : ProviderEvaluateResponse) (hrange : FairRange env)
    (h : EvaluateValues env values = (resp, none)) :
    (∀ i ∈ resp.Incidents,
      ∃ v ∈ values, v.ImageTag.Value = "latest" ∧ ∃ u, env.uriParse v.URI = .ok u ∧
        i = { FileURI := u, LineNumber := some (Atoi v.ImageTag.LineNumber).1,
              Variables := [("imageTag", "latest")] }) ∧
      (MarshalInjOn env values →
        ∀ v ∈ values, v.ImageTag.Value = "latest" → ∃ u, env.uriParse v.URI = .ok u ∧
          { FileURI := u, LineNumber := some (Atoi v.ImageTag.LineNumber).1,
            Variables := [("imageTag", "latest")] } ∈ resp.Incidents) ∧
      (∀ v ∈ values, v.ImageTag.Value ≠ "latest" →
        ∀ i ∈ resp.Incidents, i.Variables ≠ [("imageTag", v.ImageTag.Value)]) := by
  have hfrom : ∀ i ∈ resp.Incidents,
      ∃ v ∈ values, v.ImageTag.Value = "latest" ∧ ∃ u, env.uriParse v.URI = .ok u ∧
        i = { FileURI := u, LineNumber := some (Atoi v.ImageTag.LineNumber).1,
              Variables := [("imageTag", "latest")] } := by
    intro i hi
    obtain ⟨v, hv, hl, u, hu, rfl⟩ :=
      mem_candidates.1 (mem_candidates_of_mem_incidents hrange h hi)
    exact ⟨v, hv, hl, u, hu, by simp [newIncident, hl]⟩
  refine ⟨hfrom, ?_, ?_⟩
  · intro hinj v hv hl
    obtain ⟨u, hu⟩ := (EvaluateValues_ok h).1 v hv hl
    have hmem := mem_incidents_of_mem_candidates hrange hinj h
      (mem_candidates.2 ⟨v, hv, hl, u, hu, rfl⟩)
    exact ⟨u, hu, by simpa [newIncident, hl] using hmem⟩
  · intro v _ hne i hi hvars
    obtain ⟨w, _, _, u, _, rfl⟩ := hfrom i hi
    simp only [List.cons.injEq, Prod.mk.injEq, true_and, and_true] at hvars
    exact hne hvars.symm

/-- C6 at the records of `a.yaml` (`latest`, line 10) and `b.yaml` (`1.21`,
line 5): exactly one incident, for `a.yaml` line 10. -/
theorem Evaluate_incidents_exact_witness :
    EvaluateValues sampleEnv [recordA, recordB] =
        (⟨true, [⟨"file:///repo/a.yaml", some 10, [("imageTag", "latest")]⟩]⟩, none) ∧
      (∀ i ∈ [incidentA],
        ∃ v ∈ [recordA, recordB], v.ImageTag.Value = "latest" ∧
          ∃ u, sampleEnv.uriParse v.URI = .ok u ∧
            i = { FileURI := u, LineNumber := some (Atoi v.ImageTag.LineNumber).1,
                  Variables := [("imageTag", "latest")] }) ∧
      (∀ v ∈ [recordA, recordB], v.ImageTag.Value = "latest" →
        ∃ u, sampleEnv.uriParse v.URI = .ok u ∧
          { FileURI := u, LineNumber := some (Atoi v.ImageTag.LineNumber).1,
            Variables := [("imageTag", "latest")] } ∈ [incidentA]) ∧
      (∀ v ∈ [recordA, recordB], v.ImageTag.Value ≠ "latest" →
        ∀ i ∈ [incidentA], i.Variables ≠ [("imageTag", v.ImageTag.Value)]) :=
  ⟨by decide,
    (Evaluate_incidents_exact sampleEnv [recordA, recordB] ⟨true, [incidentA]⟩
      (fun l => List.reverse_perm l) (by decide)).1,
    (Evaluate_incidents_exact sampleEnv [recordA, recordB] ⟨true, [incidentA]⟩
      (fun l => List.reverse_perm l) (by decide)).2.1 (by decide),
    (Evaluate_incidents_exact sampleEnv [recordA, recordB] ⟨true, [incidentA]⟩
      (fun l => List.reverse_perm l) (by decide)).2.2⟩

/-- C10: lines 56 to 88 of `Evaluate` depend only on the set of records.  For
two lists with the same elements, one run succeeds exactly when the other
does, and then both return the same match flag and, the JSON text telling the
built incidents apart, the same set of incidents. -/
theorem Evaluate_set_of_records (env : Env) (xs ys : List k8sOutput)
    (hrange : FairRange env) (hset : ∀ v, v ∈ xs ↔ v ∈ ys) :
    ((EvaluateValues env xs).2 = none ↔ (EvaluateValues env ys).2 = none) ∧
      ((EvaluateValues env xs).2 = none →
        (EvaluateValues env xs).1.Matched = (EvaluateValues env ys).1.Matched ∧
          (MarshalInjOn env xs →
            ∀ i, i ∈ (EvaluateValues env xs).1.Incidents ↔
              i ∈ (EvaluateValues env ys).1.Incidents)) := by
  have hcand : ∀ i, i ∈ candidates env xs ↔ i ∈ candidates env ys := by
    intro i
    simp only [mem_candidates, hset]
  have hok : (EvaluateValues env xs).2 = none ↔ (EvaluateValues env ys).2 = none := by
    rw [EvaluateValues_succeeds_iff, EvaluateValues_succeeds_iff]
    exact ⟨fun hp v hv => hp v ((hset v).2 hv), fun hp v hv => hp v ((hset v).1 hv)⟩
  refine ⟨hok, fun hx => ⟨?_, fun hinj i => ?_⟩⟩
  · have h1 : EvaluateValues env xs = ((EvaluateValues env xs).1, none) := Prod.ext rfl hx
    have h2 : EvaluateValues env ys = ((EvaluateValues env ys).1, none) :=
      Prod.ext rfl (hok.1 hx)
    rw [Bool.eq_iff_iff, (EvaluateValues_ok h1).2.2, (EvaluateValues_ok h2).2.2,
      incidents_ne_nil_iff hrange h1, incidents_ne_nil_iff hrange h2]
    constructor
    · intro hne hnil
      obtain ⟨i, hi⟩ := List.exists_mem_of_ne_nil _ hne
      rw [hcand, hnil] at hi
      simp at hi
    · intro hne hnil
      obtain ⟨i, hi⟩ := List.exists_mem_of_ne_nil _ hne
      rw [← hcand, hnil] at hi
      simp at hi
  · have h1 : EvaluateValues env xs = ((EvaluateValues env xs).1, none) := Prod.ext rfl hx
    have h2 : EvaluateValues env ys = ((EvaluateValues env ys).1, none) :=
      Prod.ext rfl (hok.1 hx)
    have hinj1 : MarshalInjOn env ys := fun a ha b hb =>
      hinj a ((hcand a).2 ha) b ((hcand b).2 hb)
    constructor
    · intro hi
      exact mem_incidents_of_mem_candidates hrange hinj1 h2
        ((hcand i).1 (mem_candidates_of_mem_incidents hrange h1 hi))
    · intro hi
      exact mem_incidents_of_mem_candidates hrange hinj h1
        ((hcand i).2 (mem_candidates_of_mem_incidents hrange h2 hi))

/-- C10 at a list and the list of the same records reordered and repeated. -/
theorem Evaluate_set_of_records_witness :
    ((EvaluateValues sampleEnv [recordA, recordB, recordNoLine]).2 = none ↔
        (EvaluateValues sampleEnv
          [recordNoLine, recordB, recordA, recordA, recordNoLine]).2 = none) ∧
      (EvaluateValues sampleEnv [recordA, recordB, recordNoLine]).1.Matched =
        (EvaluateValues sampleEnv
          [recordNoLine, recordB, recordA, recordA, recordNoLine]).1.Matched ∧
      ∀ i, i ∈ (EvaluateValues sampleEnv [recordA, recordB, recordNoLine]).1.Incidents ↔
        i ∈ (EvaluateValues sampleEnv
          [recordNoLine, recordB, recordA, recordA, recordNoLine]).1.Incidents :=
  have hset : ∀ v, v ∈ [recordA, recordB, recordNoLine] ↔
      v ∈ [recordNoLine, recordB, recordA, recordA, recordNoLine] := by
    intro v
    simp only [List.mem_cons, List.mem_singleton, List.not_mem_nil, or_false]
    tauto
  ⟨(Evaluate_set_of_records sampleEnv [recordA, recordB, recordNoLine]
      [recordNoLine, recordB, recordA, recordA, recordNoLine]
      (fun l => List.reverse_perm l) hset).1,
    ((Evaluate_set_of_records sampleEnv [recordA, recordB, recordNoLine]
      [recordNoLine, recordB, recordA, recordA, recordNoLine]
      (fun l => List.reverse_perm l) hset).2 (by decide)).1,
    ((Evaluate_set_of_records sampleEnv [recordA, recordB, recordNoLine]
      [recordNoLine, recordB, recordA, recordA, recordNoLine]
      (fun l => List.reverse_perm l) hset).2 (by decide)).2 (by decide)⟩

/-- C7: for every list of records without the value `latest` that
`GetAllValuesForKey` returns under a parsable condition, and so for an empty
directory, `Evaluate` returns no error, `matched = false` and no incident; and
whenever `Evaluate` succeeds, `matched` is true exactly when the incident list
is not empty. -/
theorem Evaluate_no_match (env : Env) (cap : String) (conditionInfo : List UInt8)
    (hrange : FairRange env) :
    (env.yamlUnmarshal conditionInfo = none →
      ∀ ev values, GetAllValuesForKey env ["image"] = (ev, .ok (values, none)) →
        (∀ v ∈ values, v.ImageTag.Value ≠ "latest") →
        Evaluate env cap conditionInfo = (ev, .ok (⟨false, []⟩, none))) ∧
      (env.yamlUnmarshal conditionInfo = none → FairSchedule env → matchingFiles env = [] →
        (Evaluate env cap conditionInfo).2 = .ok (⟨false, []⟩, none)) ∧
      (∀ ev resp, Evaluate env cap conditionInfo = (ev, .ok (resp, none)) →
        (resp.Matched = true ↔ resp.Incidents ≠ [])) := by
  have h1 : env.yamlUnmarshal conditionInfo = none →
      ∀ ev values, GetAllValuesForKey env ["image"] = (ev, .ok (values, none)) →
        (∀ v ∈ values, v.ImageTag.Value ≠ "latest") →
        Evaluate env cap conditionInfo = (ev, .ok (⟨false, []⟩, none)) := by
    intro hc ev values hg hv
    unfold Evaluate
    simp only [hc, hg, EvaluateValues_no_match env values hrange hv]
  refine ⟨h1, ?_, ?_⟩
  · intro hc hs hfiles
    have hrt : (runTasks env ["image"] (env.schedule (matchingFiles env))).2 = .ok [] := by
      rw [hfiles, (hs []).eq_nil]
      rfl
    have hg := GetAllValuesForKey_of_runTasks env ["image"] [] hrt
    rw [h1 hc (GetAllValuesForKey env ["image"]).1 [] (Prod.ext rfl hg) (by simp)]
  · intro ev resp h
    unfold Evaluate at h
    cases hc : env.yamlUnmarshal conditionInfo with
    | some e => rw [hc] at h; simp at h
    | none =>
      rw [hc] at h
      simp only at h
      split at h
      · simp at h
      · simp at h
      · rename_i ev1 values hg
        have hv : EvaluateValues env values = (resp, none) := by
          have := (Prod.mk.inj h).2
          exact Except.ok.inj this
        exact (EvaluateValues_ok hv).2.2

/-- C7 at the empty example directory. -/
theorem Evaluate_no_match_witness :
    Evaluate emptyDirEnv "" [] =
        ([.findFiles "*.yaml", .findFiles "*.yml"], .ok (⟨false, []⟩, none)) ∧
      ((emptyDirEnv.yamlUnmarshal [] = none →
        ∀ ev values, GetAllValuesForKey emptyDirEnv ["image"] = (ev, .ok (values, none)) →
          (∀ v ∈ values, v.ImageTag.Value ≠ "latest") →
          Evaluate emptyDirEnv "" [] = (ev, .ok (⟨false, []⟩, none))) ∧
        (emptyDirEnv.yamlUnmarshal [] = none → FairSchedule emptyDirEnv →
          matchingFiles emptyDirEnv = [] →
          (Evaluate emptyDirEnv "" []).2 = .ok (⟨false, []⟩, none)) ∧
        (∀ ev resp, Evaluate emptyDirEnv "" [] = (ev, .ok (resp, none)) →
          (resp.Matched = true ↔ resp.Incidents ≠ []))) :=
  ⟨by decide, Evaluate_no_match emptyDirEnv "" [] (fun l => List.reverse_perm l)⟩

/-- C8: for a condition payload that `yaml.Unmarshal` rejects, `Evaluate`
returns an error and the empty response, and nothing has been done to the
outside world: no file enumerated or read, no engine run.  A call of
`GetAllValuesForKey` always leaves events, so none was made. -/
theorem Evaluate_unparsable_condition (env : Env) (cap : String) (conditionInfo : List UInt8)
    (h : env.yamlUnmarshal conditionInfo ≠ none) :
    Evaluate env cap conditionInfo =
        ([], .ok (⟨false, []⟩, some "unable to get query info")) ∧
      ∀ query, (GetAllValuesForKey env query).1 ≠ [] := by
  constructor
  · unfold Evaluate
    cases hc : env.yamlUnmarshal conditionInfo with
    | none => exact absurd hc h
    | some e => rfl
  · intro query
    unfold GetAllValuesForKey
    split <;> simp

/-- C8 at the example directory and the payload `[`. -/
theorem Evaluate_unparsable_condition_witness :
    Evaluate sampleEnv "" [91] = ([], .ok (⟨false, []⟩, some "unable to get query info")) ∧
      ∀ query, (GetAllValuesForKey sampleEnv query).1 ≠ [] :=
  Evaluate_unparsable_condition sampleEnv "" [91] (by decide)

/-! ## The claims about `GetAllValuesForKey` -/

/-- C3 fails on the code: a segment with fewer than two lines, or with no
colon in its first line, makes the parser panic on an index instead of being
skipped, and the records of the other segments and files are lost with it. -/
theorem GetAllValuesForKey_index_fault :
    parseOutputs sampleEnv "/repo/b.yaml" (Split "" "---") =
        .error (.indexOutOfRange 1 1) ∧
      parseOutputs sampleEnv "/repo/b.yaml" (Split "nginx:latest" "---") =
        .error (.indexOutOfRange 1 1) ∧
      parseOutputs sampleEnv "/repo/b.yaml" (Split "nginx\n5\n---\nnginx:latest\n7\n" "---") =
        .error (.indexOutOfRange 1 1) ∧
      WellFormedSegment "\nnginx:latest\n7\n" ∧
      (GetAllValuesForKey untaggedEnv ["image"]).2 = .error (.indexOutOfRange 1 1) ∧
      (Evaluate untaggedEnv "" []).2 = .error (.indexOutOfRange 1 1) := by
  decide

/-- C5 fails on the code: for the first line `registry:5000/nginx:latest` the
value of the record is `5000/nginx:`, the second piece of
`strings.SplitAfter` with its closing colon, not `5000/nginx:latest`; the
record does not compare equal to `latest` and `Evaluate` reports no match for
the image. -/
theorem parseOutput_second_piece_fault :
    WellFormedSegment "registry:5000/nginx:latest\n10" ∧
      SplitAfter "registry:5000/nginx:latest" ":" = ["registry:", "5000/nginx:", "latest"] ∧
      parseOutput sampleEnv "/repo/a.yaml" "registry:5000/nginx:latest\n10" =
        .ok { URI := "file:///repo/a.yaml",
              ImageTag := { Value := "5000/nginx:", LineNumber := "10" } } ∧
      (Evaluate registryEnv "" []).2 = .ok (⟨false, []⟩, none) := by
  decide

/-- What the parser returns for a well-formed segment: a record whose line
number is the second line and whose value is the second piece of
`strings.SplitAfter(first, ":")`, the part of the first line after its first
colon, up to and with the next colon when there is one, and to the end of the
line otherwise. -/
theorem parseOutput_second_piece (env : Env) (file output : String)
    (h : WellFormedSegment output) :
    ∃ first line pre rest value,
      (segmentLines output)[0]? = some first ∧ (segmentLines output)[1]? = some line ∧
      first.data = pre ++ ':' :: rest ∧ ':' ∉ pre ∧
      parseOutput env file output =
        .ok { URI := env.fileURL (env.Abs file).1,
              ImageTag := { Value := value, LineNumber := line } } ∧
      ((':' ∉ rest ∧ value.data = rest) ∨
        ∃ mid tail, rest = mid ++ ':' :: tail ∧ ':' ∉ mid ∧ value.data = mid ++ [':']) := by
  obtain ⟨first, line, value, h0, h1, hv, hp⟩ := parseOutput_of_wellFormed env file output h
  obtain ⟨pre, rest, value1, hs, hpre, hv1, hval⟩ := SplitAfter_colon_second first (h.2 first h0)
  have hvv : value1 = value := by
    rw [hv] at hv1
    exact (Option.some.inj hv1).symm
  subst hvv
  exact ⟨first, line, pre, rest, value1, h0, h1, hs, hpre, hp, hval⟩

/-- C9: whichever files cannot be read and on whichever the engine fails, when
the outputs of the others are well-formed `GetAllValuesForKey` returns no
error, and its records are, up to order, the records parsed from the outputs
of the files that were read and on which the engine succeeded, one for each
segment; a failing file has no record. -/
theorem GetAllValuesForKey_isolation (env : Env) (query : List String)
    (hs : FairSchedule env) (hwf : ∀ file ∈ matchingFiles env, outputWellFormed env query file) :
    ∃ results, (GetAllValuesForKey env query).2 = .ok (results, none) ∧
      results.Perm ((matchingFiles env).flatMap (fileRecords env query)) ∧
      (∀ file, ((∃ e, env.ReadFile file = .error e) ∨
          ∃ data e, env.ReadFile file = .ok data ∧
            env.Run (ConstructYQCommand env query) data = .error e) →
        fileRecords env query file = []) ∧
      (∀ file ∈ matchingFiles env, ∀ data stdout, env.ReadFile file = .ok data →
        env.Run (ConstructYQCommand env query) data = .ok stdout →
        (fileRecords env query file).length = (Split stdout "---").length) := by
  have hwf1 : ∀ file ∈ matchingFiles env, ∀ data stdout, env.ReadFile file = .ok data →
      env.Run (ConstructYQCommand env query) data = .ok stdout → WellFormedOutput stdout := by
    intro file hf data stdout hr hx
    have := hwf file hf
    unfold outputWellFormed at this
    simpa only [hr, hx] using this
  have hrt := runTasks_of_wellFormed env query (env.schedule (matchingFiles env))
    fun file hf => hwf1 file ((hs _).mem_iff.1 hf)
  refine ⟨_, GetAllValuesForKey_of_runTasks env query _ hrt,
    List.Perm.flatMap_right _ (hs _), ?_, ?_⟩
  · intro file hfail
    unfold fileRecords
    rcases hfail with ⟨e, he⟩ | ⟨data, e, hd, he⟩
    · simp only [he]
    · simp only [hd, he]
  · intro file hf data stdout hr hx
    unfold fileRecords
    simp only [hr, hx]
    exact (parseOutputs_of_wellFormed env file _ (hwf1 file hf data stdout hr hx)).2

/-- C9 at the example directory: `c.yaml` cannot be read, the engine fails on
`d.yml`, and the records of `a.yaml` and `b.yaml` are returned. -/
theorem GetAllValuesForKey_isolation_witness :
    (GetAllValuesForKey sampleEnv ["image"]).2 = .ok ([recordB, recordA], none) ∧
      ∃ results, (GetAllValuesForKey sampleEnv ["image"]).2 = .ok (results, none) ∧
        results.Perm ((matchingFiles sampleEnv).flatMap (fileRecords sampleEnv ["image"])) ∧
        (∀ file, ((∃ e, sampleEnv.ReadFile file = .error e) ∨
            ∃ data e, sampleEnv.ReadFile file = .ok data ∧
              sampleEnv.Run (ConstructYQCommand sampleEnv ["image"]) data = .error e) →
          fileRecords sampleEnv ["image"] file = []) ∧
        (∀ file ∈ matchingFiles sampleEnv, ∀ data stdout, sampleEnv.ReadFile file = .ok data →
          sampleEnv.Run (ConstructYQCommand sampleEnv ["image"]) data = .ok stdout →
          (fileRecords sampleEnv ["image"] file).length = (Split stdout "---").length) :=
  ⟨by decide,
    GetAllValuesForKey_isolation sampleEnv ["image"] (fun l => List.reverse_perm l)
      (by decide)⟩

end YqProvider
